import Mathlib

/-!
Verification of the header-normalization rule of the evolution-api patch set.

The repository's one contract is the Header Normalizer: an axios request
interceptor that renames the credential header `api_access_token` to
`api-access-token` before transmission.  We embed the three code sites:

* `normalize` — the request interceptor of
  `src/api/integrations/chatbot/chatwoot/libs/chatwoot-client-patch.ts`,
  `createPatchedAxiosInstance`, lines 29-41:
  `token = headers['api_access_token'] || headers['api-access-token'];
   if (token) { delete headers['api_access_token'];
                headers['api-access-token'] = token; }`
* `globalRewrite` — the wrapper installed by `patchAxiosGlobally` in
  `src/utils/patch-axios.ts`, lines 32-43, which tests only
  `headers['api_access_token']` for truthiness before moving it.
* `runPatchScript` — the post-install script (chatwoot-sdk patch) that edits
  the vendor file on disk, modelled as a pure transformation of the file's
  character content.

Headers are association lists from header name to header value; JavaScript
object semantics are mirrored: lookup finds the (unique, but we do not need
to assume it) first binding, `delete` removes the key, assignment overwrites
in place or appends, and `||` / `if` use string truthiness (the empty string
is falsy).
-/

namespace EvoPatch

/-- A header mapping: header name to header value, insertion-ordered, as a
JavaScript object holds it. -/
abbrev Headers := List (String × String)

/-- The value bound to key `k`, first binding wins (JS property access). -/
def lookupHeader (h : Headers) (k : String) : Option String :=
  match h with
  | [] => none
  | (k', v) :: rest => if k' = k then some v else lookupHeader rest k

/-- Remove every binding of key `k` (JS `delete h[k]`). -/
def deleteHeader (h : Headers) (k : String) : Headers :=
  match h with
  | [] => []
  | (k', v) :: rest => if k' = k then deleteHeader rest k else (k', v) :: deleteHeader rest k

/-- Set key `k` to value `v`: overwrite the first binding in place, else
append at the end (JS property assignment keeps insertion order). -/
def setHeader (h : Headers) (k v : String) : Headers :=
  match h with
  | [] => [(k, v)]
  | (k', v') :: rest => if k' = k then (k, v) :: rest else (k', v') :: setHeader rest k v

/-- Does the mapping contain a binding of key `k` at all? -/
def hasKey (h : Headers) (k : String) : Bool :=
  match h with
  | [] => false
  | (k', _) :: rest => if k' = k then true else hasKey rest k

/-- JavaScript truthiness of a header value: absent and the empty string are
falsy, every other string is truthy. -/
def truthy : Option String → Bool
  | none => false
  | some s => s ≠ ""

/-- JavaScript `a || b` on header values: `a` when truthy, else `b`. -/
def jsOr (a b : Option String) : Option String :=
  if truthy a then a else b

/-- An outgoing request descriptor (axios `InternalAxiosRequestConfig`): the
header mapping, which may be absent (`if (config.headers)` in the source),
plus the opaque fields the rule never inspects. -/
structure Descriptor where
  url : String
  method : String
  body : String
  headers : Option Headers
deriving DecidableEq

/-- Lookup of header `k` on a descriptor; absent mapping yields no value. -/
def hdrLookup (c : Descriptor) (k : String) : Option String :=
  match c.headers with
  | none => none
  | some h => lookupHeader h k

/-- Does the descriptor's header mapping contain key `k`? -/
def dHasKey (c : Descriptor) (k : String) : Bool :=
  match c.headers with
  | none => false
  | some h => hasKey h k

/-- The effective credential value, chatwoot-client-patch.ts line 32:
`config.headers['api_access_token'] || config.headers['api-access-token']`. -/
def effToken (h : Headers) : Option String :=
  jsOr (lookupHeader h "api_access_token") (lookupHeader h "api-access-token")

/-- The effective credential of a descriptor (none when headers are absent). -/
def dEffToken (c : Descriptor) : Option String :=
  match c.headers with
  | none => none
  | some h => effToken h

/-- The mutation of chatwoot-client-patch.ts lines 35-36:
`delete config.headers['api_access_token'];
 config.headers['api-access-token'] = token;`. -/
def rewriteHeaders (h : Headers) (t : String) : Headers :=
  setHeader (deleteHeader h "api_access_token") "api-access-token" t

/-- The header transformation of the interceptor body
(chatwoot-client-patch.ts lines 32-38): compute the effective token and, when
it is truthy, move it under the hyphenated key. -/
def normalizeHeaders (h : Headers) : Headers :=
  match effToken h with
  | none => h
  | some t => if t = "" then h else rewriteHeaders h t

/-- The request interceptor of `createPatchedAxiosInstance`
(chatwoot-client-patch.ts lines 29-41): when a header mapping is present,
normalize it; the descriptor is then returned. -/
def normalize (c : Descriptor) : Descriptor :=
  match c.headers with
  | none => c
  | some h => { c with headers := some (normalizeHeaders h) }

/-- The header transformation of the global wrapper
(patch-axios.ts lines 33-40): tests only `headers['api_access_token']` for
truthiness, with no fallback to the hyphenated key. -/
def globalRewriteHeaders (h : Headers) : Headers :=
  match lookupHeader h "api_access_token" with
  | none => h
  | some t => if t = "" then h else rewriteHeaders h t

/-- The wrapper `patchAxiosGlobally` installs over `axios.request`
(patch-axios.ts lines 32-43) as a descriptor transformation. -/
def globalRewrite (c : Descriptor) : Descriptor :=
  match c.headers with
  | none => c
  | some h => { c with headers := some (globalRewriteHeaders h) }

/-! ## Basic lemmas on the header mapping operations -/

theorem lookupHeader_deleteHeader_self (h : Headers) (k : String) :
    lookupHeader (deleteHeader h k) k = none := by
  induction h with
  | nil => rfl
  | cons p rest ih =>
    obtain ⟨a, v⟩ := p
    by_cases hk : a = k
    · simpa [deleteHeader, hk] using ih
    · simpa [deleteHeader, lookupHeader, hk] using ih

theorem lookupHeader_deleteHeader_ne (h : Headers) (k k' : String) (hne : k' ≠ k) :
    lookupHeader (deleteHeader h k) k' = lookupHeader h k' := by
  have hnk : ¬k = k' := fun he => hne he.symm
  induction h with
  | nil => rfl
  | cons p rest ih =>
    obtain ⟨a, v⟩ := p
    by_cases hk : a = k
    · have ha : ¬a = k' := fun he => hne (by rw [← he]; exact hk)
      simp [deleteHeader, hk, lookupHeader, ha, hnk, ih]
    · by_cases ha : a = k'
      · simp [deleteHeader, hk, lookupHeader, ha, hne]
      · simp [deleteHeader, hk, lookupHeader, ha, ih]

theorem lookupHeader_setHeader_self (h : Headers) (k v : String) :
    lookupHeader (setHeader h k v) k = some v := by
  induction h with
  | nil => simp [setHeader, lookupHeader]
  | cons p rest ih =>
    obtain ⟨a, v'⟩ := p
    by_cases hk : a = k
    · simp [setHeader, hk, lookupHeader]
    · simp [setHeader, hk, lookupHeader, ih]

theorem lookupHeader_setHeader_ne (h : Headers) (k v k' : String) (hne : k' ≠ k) :
    lookupHeader (setHeader h k v) k' = lookupHeader h k' := by
  have hnk : ¬k = k' := fun he => hne he.symm
  induction h with
  | nil => simp [setHeader, lookupHeader, hnk]
  | cons p rest ih =>
    obtain ⟨a, v'⟩ := p
    by_cases hk : a = k
    · have ha : ¬a = k' := fun he => hnk (by rw [← hk]; exact he)
      simp [setHeader, hk, lookupHeader, hnk, ha]
    · by_cases ha : a = k'
      · simp [setHeader, hk, lookupHeader, ha, hne]
      · simp [setHeader, hk, lookupHeader, ha, ih]

theorem deleteHeader_eq_self (h : Headers) (k : String)
    (hl : lookupHeader h k = none) : deleteHeader h k = h := by
  induction h with
  | nil => rfl
  | cons p rest ih =>
    obtain ⟨a, v⟩ := p
    by_cases hk : a = k
    · simp [lookupHeader, hk] at hl
    · simp [lookupHeader, hk] at hl
      simp [deleteHeader, hk, ih hl]

theorem setHeader_eq_self (h : Headers) (k v : String)
    (hl : lookupHeader h k = some v) : setHeader h k v = h := by
  induction h with
  | nil => simp [lookupHeader] at hl
  | cons p rest ih =>
    obtain ⟨a, v'⟩ := p
    by_cases hk : a = k
    · simp [lookupHeader, hk] at hl
      simp [setHeader, hk, hl]
    · simp [lookupHeader, hk] at hl
      simp [setHeader, hk, ih hl]

theorem hasKey_false_of_lookup_none (h : Headers) (k : String)
    (hl : lookupHeader h k = none) : hasKey h k = false := by
  induction h with
  | nil => rfl
  | cons p rest ih =>
    obtain ⟨a, v⟩ := p
    by_cases hk : a = k
    · simp [lookupHeader, hk] at hl
    · simp [lookupHeader, hk] at hl
      simp [hasKey, hk, ih hl]

theorem hasKey_deleteHeader_self (h : Headers) (k : String) :
    hasKey (deleteHeader h k) k = false :=
  hasKey_false_of_lookup_none _ _ (lookupHeader_deleteHeader_self h k)

theorem hasKey_setHeader_ne (h : Headers) (k v k' : String) (hne : k' ≠ k) :
    hasKey (setHeader h k v) k' = hasKey h k' := by
  have hnk : ¬k = k' := fun he => hne he.symm
  induction h with
  | nil => simp [setHeader, hasKey, hnk]
  | cons p rest ih =>
    obtain ⟨a, v'⟩ := p
    by_cases hk : a = k
    · have ha : ¬a = k' := fun he => hnk (by rw [← hk]; exact he)
      simp [setHeader, hk, hasKey, hnk, ha]
    · by_cases ha : a = k'
      · simp [setHeader, hk, hasKey, ha, hne]
      · simp [setHeader, hk, hasKey, ha, ih]

/-! ## Lemmas about the normalization rule -/

theorem lookupHeader_rewriteHeaders_hyphen (h : Headers) (t : String) :
    lookupHeader (rewriteHeaders h t) "api-access-token" = some t :=
  lookupHeader_setHeader_self _ _ _

theorem lookupHeader_rewriteHeaders_underscore (h : Headers) (t : String) :
    lookupHeader (rewriteHeaders h t) "api_access_token" = none := by
  unfold rewriteHeaders
  rw [lookupHeader_setHeader_ne _ _ _ _ (by decide)]
  exact lookupHeader_deleteHeader_self h _

theorem hasKey_rewriteHeaders_underscore (h : Headers) (t : String) :
    hasKey (rewriteHeaders h t) "api_access_token" = false := by
  unfold rewriteHeaders
  rw [hasKey_setHeader_ne _ _ _ _ (by decide)]
  exact hasKey_deleteHeader_self h _

theorem effToken_rewriteHeaders (h : Headers) (t : String) :
    effToken (rewriteHeaders h t) = some t := by
  unfold effToken
  rw [lookupHeader_rewriteHeaders_underscore, lookupHeader_rewriteHeaders_hyphen]
  rfl

theorem rewriteHeaders_stable (h : Headers) (t : String) :
    rewriteHeaders (rewriteHeaders h t) t = rewriteHeaders h t := by
  show setHeader (deleteHeader (rewriteHeaders h t) "api_access_token") "api-access-token" t =
    rewriteHeaders h t
  rw [deleteHeader_eq_self _ _ (lookupHeader_rewriteHeaders_underscore h t)]
  exact setHeader_eq_self _ _ _ (lookupHeader_rewriteHeaders_hyphen h t)

theorem normalizeHeaders_of_effToken (h : Headers) (t : String)
    (he : effToken h = some t) (ht : t ≠ "") :
    normalizeHeaders h = rewriteHeaders h t := by
  simp [normalizeHeaders, he, ht]

theorem normalizeHeaders_of_not_truthy (h : Headers)
    (ht : truthy (effToken h) = false) : normalizeHeaders h = h := by
  cases he : effToken h with
  | none => simp [normalizeHeaders, he]
  | some t =>
    rw [he] at ht
    simp [truthy] at ht
    simp [normalizeHeaders, he, ht]

theorem normalizeHeaders_idempotent (h : Headers) :
    normalizeHeaders (normalizeHeaders h) = normalizeHeaders h := by
  cases he : effToken h with
  | none => simp [normalizeHeaders, he]
  | some t =>
    by_cases ht : t = ""
    · simp [normalizeHeaders, he, ht]
    · have hnh : normalizeHeaders h = rewriteHeaders h t := by
        simp [normalizeHeaders, he, ht]
      rw [hnh, normalizeHeaders_of_effToken _ t (effToken_rewriteHeaders h t) ht]
      exact rewriteHeaders_stable h t

theorem normalizeHeaders_eq_self_of_no_underscore (h : Headers)
    (hl : lookupHeader h "api_access_token" = none) : normalizeHeaders h = h := by
  have hef : effToken h = lookupHeader h "api-access-token" := by
    simp [effToken, jsOr, hl, truthy]
  cases hv : lookupHeader h "api-access-token" with
  | none => simp [normalizeHeaders, hef, hv]
  | some v =>
    by_cases hvv : v = ""
    · simp [normalizeHeaders, hef, hv, hvv]
    · have hr : normalizeHeaders h = rewriteHeaders h v := by
        simp [normalizeHeaders, hef, hv, hvv]
      rw [hr]
      show setHeader (deleteHeader h "api_access_token") "api-access-token" v = h
      rw [deleteHeader_eq_self _ _ hl]
      exact setHeader_eq_self _ _ _ hv

theorem lookupHeader_normalizeHeaders_other (h : Headers) (k : String)
    (hku : k ≠ "api_access_token") (hkh : k ≠ "api-access-token") :
    lookupHeader (normalizeHeaders h) k = lookupHeader h k := by
  cases he : effToken h with
  | none => simp [normalizeHeaders, he]
  | some t =>
    by_cases ht : t = ""
    · simp [normalizeHeaders, he, ht]
    · have hr : normalizeHeaders h = rewriteHeaders h t := by
        simp [normalizeHeaders, he, ht]
      rw [hr]
      show lookupHeader (setHeader (deleteHeader h "api_access_token") "api-access-token" t) k =
        lookupHeader h k
      rw [lookupHeader_setHeader_ne _ _ _ _ hkh, lookupHeader_deleteHeader_ne _ _ _ hku]

theorem descriptor_headers_eta (c : Descriptor) (h : Headers)
    (hc : c.headers = some h) : { c with headers := some h } = c := by
  obtain ⟨u, m, b, hs⟩ := c
  simp only at hc
  subst hc
  rfl

theorem normalize_eq_update (c : Descriptor) (h : Headers) (hc : c.headers = some h) :
    normalize c = { c with headers := some (normalizeHeaders h) } := by
  simp [normalize, hc]

theorem globalRewrite_eq_update (c : Descriptor) (h : Headers) (hc : c.headers = some h) :
    globalRewrite c = { c with headers := some (globalRewriteHeaders h) } := by
  simp [globalRewrite, hc]

/-! ## Concrete descriptors used to witness and refute the claims -/

def dW1 : Descriptor :=
  ⟨"/api/v1/accounts/1/contacts", "get", "", some [("api_access_token", "tok-123")]⟩

def dX1 : Descriptor := ⟨"/api/v1/ping", "get", "", some [("api_access_token", "")]⟩

def dW3 : Descriptor := ⟨"/w3", "get", "", some [("api_access_token", "abc")]⟩

def dX3 : Descriptor :=
  ⟨"/api/v1/ping", "post", "", some [("x-request-id", "1"), ("api_access_token", "")]⟩

def dW4 : Descriptor :=
  ⟨"/w4", "get", "", some [("api_access_token", "v1"), ("api-access-token", "v2")]⟩

def dX4 : Descriptor :=
  ⟨"/x4", "get", "", some [("api_access_token", ""), ("api-access-token", "v2")]⟩

def dW5 : Descriptor := ⟨"/api/v1/ping", "get", "", some [("api-access-token", "abc")]⟩

def dW6 : Descriptor :=
  ⟨"/w6", "post", "payload", some [("content-type", "application/json"), ("api_access_token", "t6")]⟩

def dW8 : Descriptor := ⟨"/w8", "get", "", some [("api_access_token", ""), ("x-other", "1")]⟩

/-! ## Claim C1 -/

/-- Claim C1, amended: the code tests JS truthiness of the header value, not
key presence, so the claim holds once the underscore value `v` is non-empty.
For every descriptor binding `api_access_token` to a non-empty `v` with no
`api-access-token` key, both the interceptor (`normalize`) and the global
wrapper rewrite (`globalRewrite`) yield a descriptor with no
`api_access_token` key and `api-access-token` bound to `v`. -/
theorem normalize_moves_truthy_underscore_token (c : Descriptor) (v : String)
    (hv : v ≠ "") (hu : hdrLookup c "api_access_token" = some v)
    (_hh : dHasKey c "api-access-token" = false) :
    hdrLookup (normalize c) "api-access-token" = some v ∧
    dHasKey (normalize c) "api_access_token" = false ∧
    hdrLookup (globalRewrite c) "api-access-token" = some v ∧
    dHasKey (globalRewrite c) "api_access_token" = false := by
  cases hc : c.headers with
  | none => simp [hdrLookup, hc] at hu
  | some h =>
    simp [hdrLookup, hc] at hu
    have he : effToken h = some v := by simp [effToken, jsOr, hu, truthy, hv]
    have hg : globalRewriteHeaders h = rewriteHeaders h v := by
      simp [globalRewriteHeaders, hu, hv]
    rw [normalize_eq_update c h hc, globalRewrite_eq_update c h hc,
      normalizeHeaders_of_effToken h v he hv, hg]
    refine ⟨?_, ?_, ?_, ?_⟩ <;>
      simp [hdrLookup, dHasKey, lookupHeader_rewriteHeaders_hyphen,
        hasKey_rewriteHeaders_underscore]

/-- Claim C1 as frozen is false at `dX1`: the underscore key is present (bound
to the empty string, which is JS-falsy) and the hyphen key absent, yet
`normalize` keeps the `api_access_token` key and adds no `api-access-token`. -/
theorem normalize_keeps_empty_underscore_token_cex :
    hdrLookup dX1 "api_access_token" = some "" ∧
    dHasKey dX1 "api-access-token" = false ∧
    dHasKey (normalize dX1) "api_access_token" = true ∧
    hdrLookup (normalize dX1) "api-access-token" = none := by decide

/-- Witness for the amended claim C1 at the concrete descriptor `dW1`. -/
theorem normalize_moves_truthy_underscore_token_witness :
    hdrLookup (normalize dW1) "api-access-token" = some "tok-123" ∧
    dHasKey (normalize dW1) "api_access_token" = false ∧
    hdrLookup (globalRewrite dW1) "api-access-token" = some "tok-123" ∧
    dHasKey (globalRewrite dW1) "api_access_token" = false :=
  normalize_moves_truthy_underscore_token dW1 "tok-123" (by decide) (by decide) (by decide)

/-! ## Claim C2 -/

/-- Claim C2: `normalize` is idempotent; applying it to an already-normalized
descriptor changes nothing. -/
theorem normalize_idempotent (c : Descriptor) :
    normalize (normalize c) = normalize c := by
  cases hc : c.headers with
  | none => simp [normalize, hc]
  | some h =>
    rw [normalize_eq_update c h hc,
      normalize_eq_update _ (normalizeHeaders h) rfl]
    simp [normalizeHeaders_idempotent]

/-! ## Claim C3 -/

/-- Claim C3, amended: the rewrite fires only when the effective credential
(underscore value if truthy, else hyphen value) is truthy; in that case the
result contains no `api_access_token` key.  When both values are absent or
empty the descriptor is returned unchanged, so an empty-valued
`api_access_token` key can survive (see the counterexample). -/
theorem normalize_no_underscore_key_of_truthy (c : Descriptor)
    (ht : truthy (dEffToken c) = true) :
    dHasKey (normalize c) "api_access_token" = false := by
  cases hc : c.headers with
  | none => simp [dEffToken, hc, truthy] at ht
  | some h =>
    simp [dEffToken, hc] at ht
    cases he : effToken h with
    | none => rw [he] at ht; simp [truthy] at ht
    | some t =>
      rw [he] at ht
      have htt : t ≠ "" := by simpa [truthy] using ht
      rw [normalize_eq_update c h hc, normalizeHeaders_of_effToken h t he htt]
      simp [dHasKey, hasKey_rewriteHeaders_underscore]

/-- Claim C3 as frozen is false at `dX3`: its header mapping binds
`api_access_token` to the empty string and no truthy hyphen value exists, so
`normalize` returns it unchanged and the key survives. -/
theorem normalize_retains_underscore_key_cex :
    hdrLookup dX3 "api_access_token" = some "" ∧
    dHasKey (normalize dX3) "api_access_token" = true := by decide

/-- Witness for the amended claim C3 at the concrete descriptor `dW3`. -/
theorem normalize_no_underscore_key_of_truthy_witness :
    truthy (dEffToken dW3) = true ∧
    dHasKey (normalize dW3) "api_access_token" = false :=
  ⟨by decide, normalize_no_underscore_key_of_truthy dW3 (by decide)⟩

/-! ## Claim C4 -/

/-- Claim C4, amended: when both keys are present the underscore form takes
precedence provided its value `v1` is truthy (non-empty): the result binds
`api-access-token` to `v1` and has no `api_access_token` key.  When `v1` is
the empty string the JS `||` falls through to the hyphen value instead (see
the counterexample). -/
theorem normalize_underscore_precedence (c : Descriptor) (v1 v2 : String)
    (hv : v1 ≠ "") (hu : hdrLookup c "api_access_token" = some v1)
    (_hh : hdrLookup c "api-access-token" = some v2) :
    hdrLookup (normalize c) "api-access-token" = some v1 ∧
    dHasKey (normalize c) "api_access_token" = false := by
  cases hc : c.headers with
  | none => simp [hdrLookup, hc] at hu
  | some h =>
    simp [hdrLookup, hc] at hu
    have he : effToken h = some v1 := by simp [effToken, jsOr, hu, truthy, hv]
    rw [normalize_eq_update c h hc, normalizeHeaders_of_effToken h v1 he hv]
    simp [hdrLookup, dHasKey, lookupHeader_rewriteHeaders_hyphen,
      hasKey_rewriteHeaders_underscore]

/-- Claim C4 as frozen is false at `dX4`: with `api_access_token = ""` (falsy)
and `api-access-token = "v2"`, the result binds the hyphen key to `"v2"`,
not to the underscore value `""` the claim demands. -/
theorem normalize_precedence_cex :
    hdrLookup dX4 "api_access_token" = some "" ∧
    hdrLookup dX4 "api-access-token" = some "v2" ∧
    hdrLookup (normalize dX4) "api-access-token" = some "v2" ∧
    ¬hdrLookup (normalize dX4) "api-access-token" = some "" := by decide

/-- Witness for the amended claim C4 at the concrete descriptor `dW4`. -/
theorem normalize_underscore_precedence_witness :
    hdrLookup (normalize dW4) "api-access-token" = some "v1" ∧
    dHasKey (normalize dW4) "api_access_token" = false :=
  normalize_underscore_precedence dW4 "v1" "v2" (by decide) (by decide) (by decide)

/-! ## Claim C5 -/

/-- Claim C5: whenever the header mapping has no `api_access_token` key — in
particular when only `api-access-token` is present, or when neither key is
present — `normalize` returns the descriptor unchanged; the missing-credential
case is not an error and no header key is added. -/
theorem normalize_eq_self_of_no_underscore_key (c : Descriptor)
    (hu : hdrLookup c "api_access_token" = none) : normalize c = c := by
  cases hc : c.headers with
  | none => simp [normalize, hc]
  | some h =>
    simp [hdrLookup, hc] at hu
    rw [normalize_eq_update c h hc, normalizeHeaders_eq_self_of_no_underscore h hu]
    exact descriptor_headers_eta c h hc

/-- Witness for claim C5 at the concrete descriptor `dW5`, which carries only
the hyphenated key. -/
theorem normalize_eq_self_of_no_underscore_key_witness :
    hdrLookup dW5 "api_access_token" = none ∧ normalize dW5 = dW5 :=
  ⟨by decide, normalize_eq_self_of_no_underscore_key dW5 (by decide)⟩

/-! ## Claim C6 -/

/-- Claim C6: `normalize` is a frame rule — the URL, method, body, presence of
the header mapping, and every header other than the two credential keys are
identical before and after. -/
theorem normalize_frame (c : Descriptor) (k : String)
    (hku : k ≠ "api_access_token") (hkh : k ≠ "api-access-token") :
    (normalize c).url = c.url ∧ (normalize c).method = c.method ∧
    (normalize c).body = c.body ∧
    (normalize c).headers.isSome = c.headers.isSome ∧
    hdrLookup (normalize c) k = hdrLookup c k := by
  cases hc : c.headers with
  | none => simp [normalize, hc]
  | some h =>
    rw [normalize_eq_update c h hc]
    refine ⟨rfl, rfl, rfl, by simp [hc], ?_⟩
    simp [hdrLookup, hc, lookupHeader_normalizeHeaders_other h k hku hkh]

/-- Witness for claim C6 at the concrete descriptor `dW6` and the unrelated
header `content-type`. -/
theorem normalize_frame_witness :
    (normalize dW6).url = dW6.url ∧ (normalize dW6).method = dW6.method ∧
    (normalize dW6).body = dW6.body ∧
    (normalize dW6).headers.isSome = dW6.headers.isSome ∧
    hdrLookup (normalize dW6) "content-type" = hdrLookup dW6 "content-type" :=
  normalize_frame dW6 "content-type" (by decide) (by decide)

/-! ## Claim C7 -/

/-- Claim C7: `normalize` is a total function — it is defined for every
descriptor in the embedding — and it has no effect beyond the header mapping:
the opaque fields are returned untouched. -/
theorem normalize_total_preserves_opaque_fields (c : Descriptor) :
    (normalize c).url = c.url ∧ (normalize c).method = c.method ∧
    (normalize c).body = c.body := by
  cases hc : c.headers with
  | none => simp [normalize, hc]
  | some h =>
    rw [normalize_eq_update c h hc]
    exact ⟨rfl, rfl, rfl⟩

/-! ## Claim C8 -/

/-- Claim C8: when `api_access_token` holds a falsy value (the empty string)
and no truthy value sits under `api-access-token`, both the interceptor and
the global wrapper leave the descriptor unchanged — the credential lookup
tests truthiness, not key presence. -/
theorem normalize_noop_on_falsy_token (c : Descriptor)
    (hu : hdrLookup c "api_access_token" = some "")
    (hh : truthy (hdrLookup c "api-access-token") = false) :
    normalize c = c ∧ globalRewrite c = c := by
  cases hc : c.headers with
  | none => simp [hdrLookup, hc] at hu
  | some h =>
    simp [hdrLookup, hc] at hu hh
    constructor
    · have hef : effToken h = lookupHeader h "api-access-token" := by
        simp [effToken, jsOr, hu, truthy]
      have hft : truthy (effToken h) = false := by rw [hef]; exact hh
      rw [normalize_eq_update c h hc, normalizeHeaders_of_not_truthy h hft]
      exact descriptor_headers_eta c h hc
    · have hg : globalRewriteHeaders h = h := by simp [globalRewriteHeaders, hu]
      rw [globalRewrite_eq_update c h hc, hg]
      exact descriptor_headers_eta c h hc

/-- Witness for claim C8 at the concrete descriptor `dW8`. -/
theorem normalize_noop_on_falsy_token_witness :
    hdrLookup dW8 "api_access_token" = some "" ∧
    truthy (hdrLookup dW8 "api-access-token") = false ∧
    normalize dW8 = dW8 ∧ globalRewrite dW8 = dW8 :=
  ⟨by decide, by decide,
    (normalize_noop_on_falsy_token dW8 (by decide) (by decide)).1,
    (normalize_noop_on_falsy_token dW8 (by decide) (by decide)).2⟩

/-! ## Claim C9: the module-level guard of patch-axios.ts

`patch-axios.ts` keeps a module-level `let patched = false` (line 13).  The
state below carries the current header transformation applied by
`axios.request` and by `Axios.prototype.request` before the underlying
transmission, plus the flag.  A successful `patchAxiosGlobally()` call wraps
both (the wrapper rewrites the config, then calls the stored original, lines
29-59) and sets the flag (line 62); a call that sees the flag returns at once
(lines 16-19).  The model takes the success path of the try block
(`require('axios')` succeeding). -/

structure AxiosGlobalState where
  request : Descriptor → Descriptor
  protoRequest : Descriptor → Descriptor
  patched : Bool

/-- The module state at load time: unwrapped axios, `patched = false`. -/
def axiosInitialState : AxiosGlobalState :=
  { request := id, protoRequest := id, patched := false }

/-- One call of `patchAxiosGlobally` (patch-axios.ts lines 15-67): a no-op
when the flag is set, otherwise wrap both request methods with the header
rewrite and set the flag. -/
def patchAxiosGlobally (s : AxiosGlobalState) : AxiosGlobalState :=
  if s.patched then s
  else
    { request := fun c => s.request (globalRewrite c),
      protoRequest := fun c => s.protoRequest (globalRewrite c),
      patched := true }

/-- The state after the rewrite wrapper has been installed exactly once. -/
def axiosPatchedState : AxiosGlobalState :=
  { request := fun c => globalRewrite c,
    protoRequest := fun c => globalRewrite c,
    patched := true }

/-- Claim C9: `patchAxiosGlobally` applies at most once per process.  From
the initial module state, any positive number of calls leaves exactly one
rewrite wrapper installed and the flag set; and on any state a second call
is a no-op, so the wrapper is never layered on itself. -/
theorem patchAxiosGlobally_applied_once (n : Nat) (s : AxiosGlobalState) :
    patchAxiosGlobally^[n + 1] axiosInitialState = axiosPatchedState ∧
    patchAxiosGlobally (patchAxiosGlobally s) = patchAxiosGlobally s := by
  constructor
  · induction n with
    | zero => rfl
    | succ m ih =>
      rw [Function.iterate_succ_apply', ih]
      rfl
  · by_cases hp : s.patched
    · simp [patchAxiosGlobally, hp]
    · simp [patchAxiosGlobally, hp]

/-! ## Claim C10: the post-install SDK patch script

The script (the unnamed repository file, chatwoot-sdk post-install patch)
reads the vendor file `request.js`, exits without writing when the content
already contains the string `api-access-token` (lines 39-43), exits with an
error without writing when the literal line
`headers["api_access_token"] = token;` is absent (lines 51-55), and otherwise
replaces the first occurrence of that literal — JS `String.replace` with a
string pattern replaces only the first occurrence — and writes the result
back (lines 58-61).  File content is modelled as its list of characters. -/

/-- Is `p` a prefix of `s`? -/
def startsWithL (p s : List Char) : Bool :=
  match p, s with
  | [], _ => true
  | _ :: _, [] => false
  | a :: ps, b :: ss => if a = b then startsWithL ps ss else false

/-- Does `pat` occur as a contiguous substring of `s` (JS `includes`)? -/
def containsSub (pat s : List Char) : Bool :=
  match s with
  | [] => startsWithL pat []
  | c :: rest => if startsWithL pat (c :: rest) then true else containsSub pat rest

/-- Replace the first occurrence of `pat` in `s` by `rep`
(JS `String.replace` with a string pattern). -/
def replaceFirst (pat rep s : List Char) : List Char :=
  match s with
  | [] => if startsWithL pat [] then rep else []
  | c :: rest =>
    if startsWithL pat (c :: rest) then rep ++ (c :: rest).drop pat.length
    else c :: replaceFirst pat rep rest

/-- The marker whose presence means the vendor file is already patched. -/
def hyphenKeyChars : List Char := "api-access-token".toList

/-- The vendor line the script searches for (request.js line 148). -/
def sdkOriginalLine : List Char := "headers[\"api_access_token\"] = token;".toList

/-- The replacement line the script writes. -/
def sdkPatchedLine : List Char := "headers[\"api-access-token\"] = token;".toList

/-- The content transformation the post-install script performs on the vendor
file: both exit paths leave the file unwritten. -/
def runPatchScript (content : List Char) : List Char :=
  if containsSub hyphenKeyChars content then content
  else if containsSub sdkOriginalLine content then
    replaceFirst sdkOriginalLine sdkPatchedLine content
  else content

theorem startsWithL_append (p s t : List Char) (h : startsWithL p s = true) :
    startsWithL p (s ++ t) = true := by
  induction p generalizing s with
  | nil => rfl
  | cons a ps ih =>
    cases s with
    | nil => simp [startsWithL] at h
    | cons b ss =>
      by_cases hab : a = b
      · simp [startsWithL, hab] at h ⊢
        exact ih ss h
      · simp [startsWithL, hab] at h

theorem containsSub_nil_pat (s : List Char) : containsSub [] s = true := by
  cases s <;> simp [containsSub, startsWithL]

theorem containsSub_cons (pat : List Char) (c : Char) (rest : List Char)
    (h : containsSub pat rest = true) : containsSub pat (c :: rest) = true := by
  by_cases hs : startsWithL pat (c :: rest) = true
  · simp [containsSub, hs]
  · simp [containsSub, hs, h]

theorem containsSub_append_left (pat s t : List Char)
    (h : containsSub pat s = true) : containsSub pat (s ++ t) = true := by
  induction s with
  | nil =>
    cases pat with
    | nil => exact containsSub_nil_pat t
    | cons a ps => simp [containsSub, startsWithL] at h
  | cons c ss ih =>
    by_cases hs : startsWithL pat (c :: ss) = true
    · have hsw : startsWithL pat ((c :: ss) ++ t) = true := startsWithL_append pat _ t hs
      show containsSub pat (c :: (ss ++ t)) = true
      simp only [containsSub]
      rw [if_pos (by simpa using hsw)]
    · have h' : containsSub pat ss = true := by simpa [containsSub, hs] using h
      exact containsSub_cons pat c (ss ++ t) (ih h')

theorem containsSub_replaceFirst (q pat rep s : List Char)
    (hq : containsSub q rep = true) (hp : containsSub pat s = true) :
    containsSub q (replaceFirst pat rep s) = true := by
  induction s with
  | nil =>
    have hsw : startsWithL pat [] = true := by simpa [containsSub] using hp
    simpa [replaceFirst, hsw] using containsSub_append_left q rep [] hq
  | cons c rest ih =>
    by_cases hs : startsWithL pat (c :: rest) = true
    · simp only [replaceFirst, if_pos hs]
      exact containsSub_append_left q rep _ hq
    · have hp' : containsSub pat rest = true := by simpa [containsSub, hs] using hp
      simp only [replaceFirst, if_neg hs]
      exact containsSub_cons q c _ (ih hp')

/-- Claim C10: the post-install patch script is idempotent on the vendor file.
When the content already contains `api-access-token` the script exits without
writing; and running the script twice always leaves the file in the state one
run produces, because a successful replacement inserts the hyphenated marker
the first guard tests for. -/
theorem runPatchScript_idempotent (content : List Char) :
    (containsSub hyphenKeyChars content = true → runPatchScript content = content) ∧
    runPatchScript (runPatchScript content) = runPatchScript content := by
  constructor
  · intro hc
    simp [runPatchScript, hc]
  · by_cases h1 : containsSub hyphenKeyChars content = true
    · simp [runPatchScript, h1]
    · by_cases h2 : containsSub sdkOriginalLine content = true
      · have hr : runPatchScript content =
            replaceFirst sdkOriginalLine sdkPatchedLine content := by
          simp [runPatchScript, h1, h2]
        have hmark : containsSub hyphenKeyChars sdkPatchedLine = true := by decide
        have hc2 : containsSub hyphenKeyChars
            (replaceFirst sdkOriginalLine sdkPatchedLine content) = true :=
          containsSub_replaceFirst _ _ _ _ hmark h2
        rw [hr]
        simp [runPatchScript, hc2]
      · simp [runPatchScript, h1, h2]

/-- A concrete vendor-file content already containing the hyphenated marker. -/
def patchedFileContent : List Char :=
  "var t = 1; headers[\"api-access-token\"] = token; done".toList

/-- Witness for claim C10 at the concrete content `patchedFileContent`. -/
theorem runPatchScript_idempotent_witness :
    containsSub hyphenKeyChars patchedFileContent = true ∧
    runPatchScript patchedFileContent = patchedFileContent ∧
    runPatchScript (runPatchScript patchedFileContent) =
      runPatchScript patchedFileContent :=
  ⟨by decide, (runPatchScript_idempotent patchedFileContent).1 (by decide),
    (runPatchScript_idempotent patchedFileContent).2⟩

end EvoPatch
